import Mathlib

/-!
Verification of the sup3 transfer/namespace-synthesis engine.

Shallow embedding of the Rust sources (src/s3/uri.rs, src/s3/glob.rs,
src/s3/seen_directories.rs, src/s3/partial_file.rs, src/s3.rs,
src/transfer.rs).  Strings are embedded as `List Char` (the code under
scrutiny only manipulates them character-wise; where the Rust code mixes
byte indices and char indices this is noted at the definition).  External
collaborators (the url crate, the wax glob compiler, the AWS SDK backend
and the filesystem) are modelled as explicit inputs/oracles at the
boundary where the code consumes them.
-/

namespace Sup3

/-- Characters of a Rust `String`/`str`. -/
abbrev Str := List Char

/-! ## Key model (src/s3/uri.rs, `impl Key`) -/

/-- `Key::is_explicitly_directory`: `self.0.ends_with('/') || self.0.is_empty()`. -/
def is_explicitly_directory (k : Str) : Bool :=
  k.getLast? == some '/' || k.isEmpty

/-- `Key::to_explicit_directory`: append `'/'` unless `is_explicitly_directory`. -/
def to_explicit_directory (k : Str) : Str :=
  if is_explicitly_directory k then k else k ++ ['/']

theorem is_explicitly_directory_append_slash (k : Str) :
    is_explicitly_directory (k ++ ['/']) = true := by
  simp [is_explicitly_directory, List.getLast?_concat]

/-- Claim C7: for every key `k`, `k.to_explicit_directory()` satisfies
`is_explicitly_directory`, and `to_explicit_directory` is idempotent. -/
theorem key_to_explicit_directory_spec (k : Str) :
    is_explicitly_directory (to_explicit_directory k) = true ∧
    to_explicit_directory (to_explicit_directory k) = to_explicit_directory k := by
  unfold to_explicit_directory
  by_cases h : is_explicitly_directory k
  · simp [h]
  · simp [h, is_explicitly_directory_append_slash]

/-! ## Seen-directory tracker (src/s3/seen_directories.rs) -/

/-- `str::trim_end_matches(|c| c != '/')`: drop the trailing run of
non-`'/'` characters. -/
def trimEndNonSlash (k : Str) : Str :=
  (k.reverse.dropWhile (fun c => c != '/')).reverse

/-- `str::strip_suffix('/')` followed by `unwrap_or(self)`: drop one
trailing `'/'` when present. -/
def stripOneTrailingSlash (k : Str) : Str :=
  match k.reverse with
  | c :: rest => if c = '/' then rest.reverse else k
  | [] => k

/-- `dirname` (seen_directories.rs lines 6-9): directory portion of a key,
without its trailing separator. -/
def dirname (k : Str) : Str :=
  stripOneTrailingSlash (trimEndNonSlash k)

/-- `up_directory` (seen_directories.rs lines 11-14): strip a trailing
`'/'`, then keep everything before the last `'/'` (or `""`). -/
def up_directory (k : Str) : Str :=
  stripOneTrailingSlash (trimEndNonSlash (stripOneTrailingSlash k))

theorem stripOneTrailingSlash_of_slash (k : Str) (h : k.getLast? = some '/') :
    (stripOneTrailingSlash k).length + 1 = k.length := by
  unfold stripOneTrailingSlash
  cases hk : k.reverse with
  | nil =>
    have : k = [] := by simpa using congrArg List.reverse hk
    subst this
    simp at h
  | cons c rest =>
    have hc : c = '/' := by
      have h1 : k.reverse.head? = k.getLast? := List.head?_reverse k
      rw [hk, h] at h1
      simpa using h1
    have hlen : k.length = rest.length + 1 := by
      have := congrArg List.length hk
      simpa using this
    simp [hc, hlen]

theorem stripOneTrailingSlash_of_not_slash (k : Str) (h : ¬ k.getLast? = some '/') :
    stripOneTrailingSlash k = k := by
  unfold stripOneTrailingSlash
  cases hk : k.reverse with
  | nil => rfl
  | cons c rest =>
    have hc : ¬ c = '/' := by
      intro hc
      apply h
      have h1 : k.reverse.head? = k.getLast? := List.head?_reverse k
      rw [hk] at h1
      simp [← h1, hc]
    simp [hc]

theorem length_stripOneTrailingSlash_le (k : Str) :
    (stripOneTrailingSlash k).length ≤ k.length := by
  by_cases h : k.getLast? = some '/'
  · have := stripOneTrailingSlash_of_slash k h
    omega
  · rw [stripOneTrailingSlash_of_not_slash k h]

theorem length_trimEndNonSlash_le (k : Str) :
    (trimEndNonSlash k).length ≤ k.length := by
  unfold trimEndNonSlash
  have h := (List.dropWhile_sublist (l := k.reverse) (p := fun c => c != '/')).length_le
  simpa using h

theorem length_trimEndNonSlash_lt (k : Str) (c : Char) (h : k.getLast? = some c)
    (hc : ¬ c = '/') : (trimEndNonSlash k).length < k.length := by
  unfold trimEndNonSlash
  cases hk : k.reverse with
  | nil =>
    have : k = [] := by simpa using congrArg List.reverse hk
    subst this
    simp at h
  | cons a rest =>
    have ha : a = c := by
      have h1 : k.reverse.head? = k.getLast? := List.head?_reverse k
      rw [hk, h] at h1
      simpa using h1
    have hlen : k.length = rest.length + 1 := by
      have := congrArg List.length hk
      simpa using this
    have hd : List.dropWhile (fun c => c != '/') (a :: rest)
        = List.dropWhile (fun c => c != '/') rest := by
      simp [List.dropWhile_cons, ha, hc]
    have hle := (List.dropWhile_sublist (l := rest) (p := fun c => c != '/')).length_le
    rw [hd]
    simp only [List.length_reverse]
    omega

theorem up_directory_length_lt (k : Str) (hk : 0 < k.length) :
    (up_directory k).length < k.length := by
  by_cases h : k.getLast? = some '/'
  · have h1 := stripOneTrailingSlash_of_slash k h
    have h2 := length_trimEndNonSlash_le (stripOneTrailingSlash k)
    have h3 := length_stripOneTrailingSlash_le (trimEndNonSlash (stripOneTrailingSlash k))
    unfold up_directory
    omega
  · have hne : k ≠ [] := by
      intro hnil
      subst hnil
      simp at hk
    obtain ⟨c, hc⟩ : ∃ c, k.getLast? = some c := by
      cases hg : k.getLast? with
      | none => exact absurd (List.getLast?_eq_none_iff.mp hg) hne
      | some c => exact ⟨c, rfl⟩
    have hcs : ¬ c = '/' := by
      intro he
      exact h (he ▸ hc)
    have h1 := length_trimEndNonSlash_lt k c hc hcs
    have h2 := length_stripOneTrailingSlash_le (trimEndNonSlash k)
    unfold up_directory
    rw [stripOneTrailingSlash_of_not_slash k h]
    omega

/-- The tracker state (seen_directories.rs lines 1-4).  The Rust `HashSet`
is modelled as a list used only through membership. -/
structure SeenDirectories where
  seen : List Str
  prefix_len : Nat
deriving DecidableEq

/-- `SeenDirectories::new` (lines 17-20). -/
def SeenDirectories.new (p : Str) : SeenDirectories :=
  ⟨[], if p.getLast? == some '/' then p.length - 1 else p.length⟩

/-- Structural engine for the `missing_directories` loop: the fuel is an
upper bound on the length of the current search key, which shrinks
strictly at every `up_directory` step. -/
def missingDirsGo (seen : List Str) (plen : Nat) : Nat → Str → List Str
  | 0, _ => []
  | fuel + 1, k =>
    if plen < k.length then
      if k ∈ seen then []
      else
        k :: (if (up_directory k).isEmpty then []
              else missingDirsGo seen plen fuel (up_directory k))
    else []

/-- `SeenDirectories::missing_directories` (lines 32-49).  The push after
the loop (lines 45-47) is unreachable — the loop only breaks with
`search_key` empty, and `0 > prefix_len` never holds — so the embedding
keeps the `is_empty` break explicit and omits the dead push.
`missingDirs_eq` below recovers the loop-shaped unfolding. -/
def missingDirs (seen : List Str) (plen : Nat) (k : Str) : List Str :=
  missingDirsGo seen plen k.length k

theorem missingDirsGo_congr (seen : List Str) (plen : Nat) :
    ∀ (f1 f2 : Nat) (k : Str), k.length ≤ f1 → k.length ≤ f2 →
      missingDirsGo seen plen f1 k = missingDirsGo seen plen f2 k := by
  intro f1
  induction f1 with
  | zero =>
    intro f2 k h1 h2
    have hk : k.length = 0 := by omega
    cases f2 with
    | zero => rfl
    | succ g =>
      rw [missingDirsGo, missingDirsGo]
      have : ¬ plen < k.length := by omega
      simp [this]
  | succ a ih =>
    intro f2 k h1 h2
    cases f2 with
    | zero =>
      have hk : k.length = 0 := by omega
      rw [missingDirsGo, missingDirsGo]
      have : ¬ plen < k.length := by omega
      simp [this]
    | succ b =>
      rw [missingDirsGo, missingDirsGo]
      by_cases hg : plen < k.length
      · by_cases hs : k ∈ seen
        · simp [hg, hs]
        · have hup : (up_directory k).length < k.length :=
            up_directory_length_lt k (by omega)
          have := ih b (up_directory k) (by omega) (by omega)
          simp [hg, hs, this]
      · simp [hg]

/-- The loop-shaped unfolding equation of `missing_directories`. -/
theorem missingDirs_eq (seen : List Str) (plen : Nat) (k : Str) :
    missingDirs seen plen k =
      if plen < k.length then
        if k ∈ seen then []
        else
          k :: (if (up_directory k).isEmpty then []
                else missingDirs seen plen (up_directory k))
      else [] := by
  unfold missingDirs
  cases hl : k.length with
  | zero =>
    rw [missingDirsGo]
    simp
  | succ n =>
    rw [missingDirsGo, hl]
    by_cases hg : plen < n + 1
    · by_cases hs : k ∈ seen
      · simp [hg, hs]
      · have hup : (up_directory k).length < k.length := up_directory_length_lt k (by omega)
        have := missingDirsGo_congr seen plen n (up_directory k).length (up_directory k)
          (by omega) (by omega)
        simp [hg, hs, this]
    · simp [hg]

/-- `SeenDirectories::add_key` (lines 24-31): compute the unseen ancestor
directories, record them as seen, and return them reversed (top-down). -/
def SeenDirectories.add_key (sd : SeenDirectories) (key : Str) :
    List Str × SeenDirectories :=
  let missing := missingDirs sd.seen sd.prefix_len (dirname key)
  (missing.reverse, ⟨missing ++ sd.seen, sd.prefix_len⟩)

/-- A whole sequence of `add_key` calls, collecting each returned list. -/
def runAdds (sd : SeenDirectories) : List Str → List (List Str)
  | [] => []
  | k :: ks =>
    let r := sd.add_key k
    r.1 :: runAdds r.2 ks

theorem missingDirs_head (seen : List Str) (plen : Nat) (k : Str) :
    missingDirs seen plen k = [] ∨ (missingDirs seen plen k).head? = some k := by
  rw [missingDirs_eq]
  by_cases h1 : plen < k.length
  · by_cases h2 : k ∈ seen
    · simp [h1, h2]
    · simp [h1, h2]
  · simp [h1]

theorem missingDirs_props (seen : List Str) (plen : Nat) :
    ∀ (n : Nat) (k : Str), k.length ≤ n →
      (∀ d ∈ missingDirs seen plen k, plen < d.length ∧ d ∉ seen) ∧
      List.Chain' (fun a b => b = up_directory a ∧ b.length < a.length)
        (missingDirs seen plen k) := by
  intro n
  induction n with
  | zero =>
    intro k hk
    have hk0 : k = [] := List.length_eq_zero.mp (Nat.le_zero.mp hk)
    subst hk0
    rw [missingDirs_eq]
    simp
  | succ n ih =>
    intro k hk
    rw [missingDirs_eq]
    by_cases h1 : plen < k.length
    · by_cases h2 : k ∈ seen
      · simp [h1, h2]
      · have hup : (up_directory k).length < k.length :=
          up_directory_length_lt k (by omega)
        have hupn : (up_directory k).length ≤ n := by omega
        have ihu := ih (up_directory k) hupn
        by_cases h3 : (up_directory k).isEmpty
        · simp [h1, h2, h3]
        · simp only [h1, h2, h3, if_true, if_false, if_pos, if_neg, Bool.false_eq_true,
            ite_true, ite_false]
          constructor
          · intro d hd
            rcases List.mem_cons.mp hd with hd | hd
            · subst hd
              exact ⟨h1, h2⟩
            · exact ihu.1 d hd
          · rw [List.chain'_cons']
            refine ⟨?_, ihu.2⟩
            intro b hb
            rcases missingDirs_head seen plen (up_directory k) with he | hh
            · rw [he] at hb
              simp at hb
            · rw [hh] at hb
              have hb2 : up_directory k = b := by simpa using hb
              subst hb2
              exact ⟨rfl, hup⟩
    · simp [h1]

theorem missingDirs_mem (seen : List Str) (plen : Nat) (k : Str) :
    ∀ d ∈ missingDirs seen plen k, plen < d.length ∧ d ∉ seen :=
  (missingDirs_props seen plen k.length k le_rfl).1

theorem missingDirs_chain (seen : List Str) (plen : Nat) (k : Str) :
    List.Chain' (fun a b => b = up_directory a ∧ b.length < a.length)
      (missingDirs seen plen k) :=
  (missingDirs_props seen plen k.length k le_rfl).2

theorem missingDirs_nodup (seen : List Str) (plen : Nat) (k : Str) :
    (missingDirs seen plen k).Nodup := by
  have h := missingDirs_chain seen plen k
  haveI : IsTrans Str (fun a b => b.length < a.length) :=
    ⟨fun _ _ _ h1 h2 => by omega⟩
  have hp : (missingDirs seen plen k).Pairwise (fun a b => b.length < a.length) :=
    List.chain'_iff_pairwise.mp (h.imp (fun _ _ hab => hab.2))
  exact hp.imp (fun hab he => by subst he; omega)

theorem add_key_prefix_len (sd : SeenDirectories) (k : Str) :
    (sd.add_key k).2.prefix_len = sd.prefix_len := rfl

/-- Per-call facts used across a whole run: returned directories are deep
enough, fresh, recorded, and chained shallow-to-deep. -/
theorem add_key_spec (sd : SeenDirectories) (k : Str) :
    (∀ d ∈ (sd.add_key k).1, sd.prefix_len < d.length ∧ d ∉ sd.seen) ∧
    ((sd.add_key k).1).Nodup ∧
    List.Chain' (fun a b => a = up_directory b ∧ a.length < b.length)
      ((sd.add_key k).1) ∧
    (∀ d, d ∈ (sd.add_key k).1 ∨ d ∈ sd.seen ↔ d ∈ (sd.add_key k).2.seen) := by
  refine ⟨?_, ?_, ?_, ?_⟩
  · intro d hd
    exact missingDirs_mem sd.seen sd.prefix_len (dirname k) d (List.mem_reverse.mp hd)
  · exact List.nodup_reverse.mpr (missingDirs_nodup sd.seen sd.prefix_len (dirname k))
  · exact List.chain'_reverse.mpr (missingDirs_chain sd.seen sd.prefix_len (dirname k))
  · intro d
    constructor
    · intro hd
      rcases hd with hd | hd
      · exact List.mem_append.mpr (Or.inl (List.mem_reverse.mp hd))
      · exact List.mem_append.mpr (Or.inr hd)
    · intro hd
      rcases List.mem_append.mp hd with hd | hd
      · exact Or.inl (List.mem_reverse.mpr hd)
      · exact Or.inr hd

theorem runAdds_join_spec :
    ∀ (ks : List Str) (sd : SeenDirectories),
      ((runAdds sd ks).flatten).Nodup ∧ ∀ d ∈ (runAdds sd ks).flatten, d ∉ sd.seen := by
  intro ks
  induction ks with
  | nil =>
    intro sd
    simp [runAdds]
  | cons k ks ih =>
    intro sd
    have hk := add_key_spec sd k
    have ihr := ih (sd.add_key k).2
    rw [runAdds]
    simp only [List.flatten_cons]
    constructor
    · refine List.Nodup.append hk.2.1 ihr.1 ?_
      intro d hd1 hd2
      have hd2' : d ∉ (sd.add_key k).2.seen := ihr.2 d hd2
      exact hd2' (((hk.2.2.2) d).mp (Or.inl hd1))
    · intro d hd
      rcases List.mem_append.mp hd with hd | hd
      · exact (hk.1 d hd).2
      · intro hs
        exact (ihr.2 d hd) (((hk.2.2.2) d).mp (Or.inr hs))

theorem runAdds_out_spec :
    ∀ (ks : List Str) (sd : SeenDirectories), ∀ out ∈ runAdds sd ks,
      (∀ d ∈ out, sd.prefix_len < d.length) ∧
      List.Chain' (fun a b => a = up_directory b ∧ a.length < b.length) out := by
  intro ks
  induction ks with
  | nil =>
    intro sd out hout
    simp [runAdds] at hout
  | cons k ks ih =>
    intro sd out hout
    rw [runAdds] at hout
    rcases List.mem_cons.mp hout with hout | hout
    · subst hout
      have hk := add_key_spec sd k
      exact ⟨fun d hd => (hk.1 d hd).1, hk.2.2.1⟩
    · have := ih (sd.add_key k).2 out hout
      rw [add_key_prefix_len] at this
      exact this

/-- Claim C2: for every prefix `p` and key sequence, `add_key` never
returns a directory whose length is within the prefix length (the depth
of `p`, its trailing slash ignored), never returns the same directory
twice across the whole call sequence, returns each list ordered from
shallowest ancestor to deepest (consecutive entries related by
`up_directory`), and returns the empty list for a key whose ancestor
chain reaches the root before any new directory is found. -/
theorem seen_directories_add_key_spec (p : Str) (ks : List Str) :
    (∀ out ∈ runAdds (SeenDirectories.new p) ks, ∀ d ∈ out,
        (SeenDirectories.new p).prefix_len < d.length) ∧
    ((runAdds (SeenDirectories.new p) ks).flatten).Nodup ∧
    (∀ out ∈ runAdds (SeenDirectories.new p) ks,
        List.Chain' (fun a b => a = up_directory b ∧ a.length < b.length) out) ∧
    (∀ (sd : SeenDirectories) (k : Str),
        (dirname k).length ≤ sd.prefix_len → (sd.add_key k).1 = []) := by
  refine ⟨?_, ?_, ?_, ?_⟩
  · intro out hout d hd
    exact (runAdds_out_spec ks (SeenDirectories.new p) out hout).1 d hd
  · exact (runAdds_join_spec ks (SeenDirectories.new p)).1
  · intro out hout
    exact (runAdds_out_spec ks (SeenDirectories.new p) out hout).2
  · intro sd k hk
    unfold SeenDirectories.add_key
    rw [missingDirs_eq]
    have : ¬ sd.prefix_len < (dirname k).length := by omega
    simp [this]

/-- Witness for C2 at the spec's own example: prefix `""`, keys
`base/first/second/file.txt` then `base/first/second2/pic.jpg`. -/
theorem seen_directories_add_key_spec_witness :
    (SeenDirectories.new []).prefix_len < ("base".toList : Str).length ∧
    ((runAdds (SeenDirectories.new [])
        ["base/first/second/file.txt".toList, "base/first/second2/pic.jpg".toList]).flatten).Nodup :=
  ⟨(seen_directories_add_key_spec []
        ["base/first/second/file.txt".toList, "base/first/second2/pic.jpg".toList]).1
      ["base".toList, "base/first".toList, "base/first/second".toList] (by decide)
      ("base".toList) (by decide),
   (seen_directories_add_key_spec []
        ["base/first/second/file.txt".toList, "base/first/second2/pic.jpg".toList]).2.1⟩

/-! ## Glob matcher (src/s3/glob.rs) -/

/-- `str::find("**")` (glob.rs line 86): the BYTE offset of the first
occurrence of `**` in the UTF-8 encoding.  `'*'` is ASCII and UTF-8 is
self-synchronizing, so the byte-level substring search finds exactly the
first char-level `**`, at the byte offset accumulated from the UTF-8
sizes of the preceding characters. -/
def findStarStar : Str → Option Nat
  | [] => none
  | c :: rest =>
    if c = '*' ∧ rest[0]? = some '*' then some 0
    else (findStarStar rest).map (· + c.utf8Size)

/-- `glob_has_resursive_wildcard` (glob.rs lines 85-98), keeping the
source's spelling — including its unit mixing: the byte offset returned
by `find` is fed into the char-indexed `chars().nth(index - 1)` and
`chars().nth(index - 2)` lookups. -/
def glob_has_resursive_wildcard (glob_str : Str) : Bool :=
  match findStarStar glob_str with
  | none => false
  | some 0 => true
  | some 1 => !(glob_str[0]? == some '\\')
  | some (n + 2) => (glob_str[n]? == some '\\') || !(glob_str[(n + 1)]? == some '\\')

/-- The char-level position of the first `**` occurrence (the spec-side
notion of "the first `**` token"). -/
def findStarStarChars : Str → Option Nat
  | [] => none
  | c :: rest =>
    if c = '*' ∧ rest[0]? = some '*' then some 0
    else (findStarStarChars rest).map (· + 1)

/-- On a glob whose characters are all one UTF-8 byte (ASCII), the byte
offset of the first `**` and its char position coincide. -/
theorem findStarStar_ascii :
    ∀ (s : Str), (∀ c ∈ s, c.utf8Size = 1) →
      findStarStar s = findStarStarChars s := by
  intro s
  induction s with
  | nil =>
    intro _
    rfl
  | cons c rest ih =>
    intro h
    rw [findStarStar, findStarStarChars]
    by_cases hstar : c = '*' ∧ rest[0]? = some '*'
    · rw [if_pos hstar, if_pos hstar]
    · rw [if_neg hstar, if_neg hstar,
        ih (fun x hx => h x (List.mem_cons_of_mem c hx)),
        h c (List.mem_cons_self c rest)]

/-- Whether positions `i, i+1` of `s` hold `**`. -/
def starAt (s : Str) (i : Nat) : Bool :=
  (s[i]? == some '*') && (s[(i + 1)]? == some '*')

/-- Length of the run of backslashes immediately preceding position `i`
(the escape run the claim speaks about). -/
def backslashRun (s : Str) : Nat → Nat
  | 0 => 0
  | i + 1 => if s[i]? == some '\\' then backslashRun s i + 1 else 0

/-- Claim C3's stated rule: some `**` occurrence is preceded by an even
(possibly zero) run of escaping backslashes. -/
def claimRecursiveWildcard (s : Str) : Bool :=
  (List.range s.length).any (fun i => starAt s i && (backslashRun s i % 2 == 0))

/-- Claim C3 (counterexample): on `\\\**` — its only `**` is preceded by
three backslashes, an odd number, so the claimed rule says it is escaped —
the code nevertheless reports a recursive wildcard, because it only looks
two characters back. -/
theorem glob_recursive_wildcard_cex :
    glob_has_resursive_wildcard ['\\', '\\', '\\', '*', '*'] = true ∧
    claimRecursiveWildcard ['\\', '\\', '\\', '*', '*'] = false := by
  decide

/-- `findStarStarChars` really is the first `**` occurrence. -/
theorem findStarStarChars_first (s : Str) :
    (∀ i, findStarStarChars s = some i → starAt s i = true ∧ ∀ j, j < i → starAt s j = false) ∧
    (findStarStarChars s = none → ∀ j, starAt s j = false) := by
  induction s with
  | nil =>
    constructor
    · intro i h
      simp [findStarStarChars] at h
    · intro _ j
      simp [starAt]
  | cons c rest ih =>
    by_cases hstar : c = '*' ∧ rest[0]? = some '*'
    · constructor
      · intro i h
        rw [findStarStarChars] at h
        rw [if_pos hstar] at h
        have hi : i = 0 := by
          simpa using h.symm
        subst hi
        constructor
        · simp [starAt, hstar.1, hstar.2]
        · intro j hj
          omega
      · intro h
        rw [findStarStarChars, if_pos hstar] at h
        simp at h
    · constructor
      · intro i h
        rw [findStarStarChars, if_neg hstar] at h
        cases hr : findStarStarChars rest with
        | none =>
          rw [hr] at h
          simp at h
        | some i' =>
          rw [hr] at h
          have hi : i = i' + 1 := by simpa using h.symm
          subst hi
          have hrest := (ih.1 i' hr)
          constructor
          · simpa [starAt] using hrest.1
          · intro j hj
            cases j with
            | zero =>
              simp only [starAt, List.getElem?_cons_zero, List.getElem?_cons_succ]
              rcases not_and_or.mp hstar with hc | hc
              · simp [hc]
              · simp [hc]
            | succ j' =>
              have := hrest.2 j' (by omega)
              simpa [starAt] using this
      · intro h
        rw [findStarStarChars, if_neg hstar] at h
        cases hr : findStarStarChars rest with
        | none =>
          intro j
          cases j with
          | zero =>
            simp only [starAt, List.getElem?_cons_zero, List.getElem?_cons_succ]
            rcases not_and_or.mp hstar with hc | hc
            · simp [hc]
            · simp [hc]
          | succ j' =>
            have := ih.2 hr j'
            simpa [starAt] using this
        | some i' =>
          rw [hr] at h
          simp at h

/-- Claim C3 (amended): for a glob whose characters are all ASCII (one
UTF-8 byte each) — which covers the four examples of the claim — the
first `**` occurrence counts as a recursive wildcard unless the backslash
run immediately preceding it has length exactly one; runs of length zero,
or two or more, leave it recursive.  The code feeds the byte offset of
the first `**` into char-indexed lookups of the two preceding positions,
so the rule does not extend past ASCII: `aé\**` is reported recursive
although its `**` is escaped by a single backslash. -/
theorem glob_recursive_wildcard_amended :
    (∀ s : Str, (∀ c ∈ s, c.utf8Size = 1) →
      glob_has_resursive_wildcard s =
        (match findStarStarChars s with
         | none => false
         | some i => !(backslashRun s i == 1))) ∧
    glob_has_resursive_wildcard ['t', 'e', 's', 't', '/', '*', '*'] = true ∧
    glob_has_resursive_wildcard ['t', 'e', 's', 't', '/', '\\', '*', '*'] = false ∧
    glob_has_resursive_wildcard ['t', 'e', 's', 't', '/', '\\', '\\', '*', '*'] = true ∧
    glob_has_resursive_wildcard ['t', 'e', 's', 't', '/', '*'] = false ∧
    (glob_has_resursive_wildcard ['a', 'é', '\\', '*', '*'] = true ∧
     backslashRun ['a', 'é', '\\', '*', '*'] 3 = 1) := by
  refine ⟨?_, by decide, by decide, by decide, by decide, by decide⟩
  intro s hascii
  unfold glob_has_resursive_wildcard
  rw [findStarStar_ascii s hascii]
  cases h : findStarStarChars s with
  | none => rfl
  | some i =>
    match i with
    | 0 => simp [backslashRun]
    | 1 =>
      by_cases h0 : s[0]? = some '\\'
      · simp [backslashRun, h0]
      · simp [backslashRun, h0]
    | n + 2 =>
      by_cases h1 : s[(n + 1)]? = some '\\'
      · by_cases h2 : s[n]? = some '\\'
        · have hrun : (backslashRun s n + 1 + 1 == 1) = false := by
            rw [beq_eq_false_iff_ne]
            omega
          simp [backslashRun, h1, h2, hrun]
        · simp [backslashRun, h1, h2]
      · simp [backslashRun, h1]

/-- Witness for C3 (amended) at the ASCII glob `test/\**`. -/
theorem glob_recursive_wildcard_amended_witness :
    (∀ c ∈ (['t', 'e', 's', 't', '/', '\\', '*', '*'] : Str), c.utf8Size = 1) ∧
    glob_has_resursive_wildcard ['t', 'e', 's', 't', '/', '\\', '*', '*']
      = (match findStarStarChars ['t', 'e', 's', 't', '/', '\\', '*', '*'] with
         | none => false
         | some i => !(backslashRun ['t', 'e', 's', 't', '/', '\\', '*', '*'] i == 1)) :=
  ⟨by decide,
   glob_recursive_wildcard_amended.1 ['t', 'e', 's', 't', '/', '\\', '*', '*'] (by decide)⟩

/-- `str::strip_prefix(prefix)` on strings: `some` remainder iff the
pattern is a prefix. -/
def stripPre : Str → Str → Option Str
  | [], s => some s
  | _ :: _, [] => none
  | p :: ps, c :: cs => if p = c then stripPre ps cs else none

theorem stripPre_isSome_iff : ∀ (p s : Str), (stripPre p s).isSome = true ↔ p <+: s := by
  intro p
  induction p with
  | nil =>
    intro s
    simp [stripPre]
  | cons a ps ih =>
    intro s
    cases s with
    | nil =>
      simp [stripPre]
    | cons c cs =>
      by_cases hac : a = c
      · subst hac
        rw [stripPre]
        simp [ih, List.cons_prefix_cons]
      · rw [stripPre]
        simp only [if_neg hac]
        simp [List.cons_prefix_cons, hac]

/-- `Glob::matches` (glob.rs lines 69-74).  The compiled wax pattern is an
external collaborator and enters as the oracle `isMatch`; `none` models
the `expect("key must contain prefix we fetched")` panic on a key that
does not start with the glob's literal leading part. -/
def globMatches (pfx : Str) (isMatch : Str → Bool) (key : Str) : Option Bool :=
  match stripPre pfx key with
  | none => none
  | some without =>
    let without_slash := match without with
      | '/' :: r => r
      | _ => without
    some (isMatch (stripOneTrailingSlash without_slash))

/-- Claim C10: `Glob::matches` totally returns a boolean on any candidate
key that starts with the glob's literal leading part (its failure branch
is unreachable), and panics — modelled as `none` — on any key that does
not. -/
theorem glob_matches_prereq (pfx key : Str) (isMatch : Str → Bool) :
    (pfx <+: key → (globMatches pfx isMatch key).isSome = true) ∧
    (¬ pfx <+: key → globMatches pfx isMatch key = none) := by
  constructor
  · intro h
    rw [← stripPre_isSome_iff] at h
    unfold globMatches
    cases hs : stripPre pfx key with
    | none =>
      rw [hs] at h
      simp at h
    | some w => simp
  · intro h
    rw [← stripPre_isSome_iff] at h
    unfold globMatches
    cases hs : stripPre pfx key with
    | none => rfl
    | some w =>
      rw [hs] at h
      simp at h

/-- Witness for C10 at concrete keys on both sides of the precondition. -/
theorem glob_matches_prereq_witness :
    (['t'] <+: ['t', 'x']) ∧
    (globMatches ['t'] (fun _ => true) ['t', 'x']).isSome = true ∧
    ¬(['a'] <+: ['t', 'x']) ∧
    globMatches ['a'] (fun _ => true) ['t', 'x'] = none :=
  ⟨by decide,
   (glob_matches_prereq ['t'] ['t', 'x'] (fun _ => true)).1 (by decide),
   by decide,
   (glob_matches_prereq ['a'] ['t', 'x'] (fun _ => true)).2 (by decide)⟩

/-! ## Partial-file writer (src/s3/partial_file.rs) -/

/-- The local filesystem at the boundary the writer uses: contents by
path, `none` meaning the path does not exist. -/
abbrev FileSys := Str → Option (List Nat)

/-- File creation/overwrite (`File::create`, rename target). -/
def fsSet (fs : FileSys) (p : Str) (v : List Nat) : FileSys :=
  fun q => if q = p then some v else fs q

/-- File deletion (`remove_file`, rename source). -/
def fsRemove (fs : FileSys) (p : Str) : FileSys :=
  fun q => if q = p then none else fs q

/-- The fixed suffix appended to the final path (partial_file.rs line 13):
`".sup3.partial"`. -/
def tempSuffix : Str :=
  ['.', 's', 'u', 'p', '3', '.', 'p', 'a', 'r', 't', 'i', 'a', 'l']

/-- `PartialFile` state (partial_file.rs lines 4-8): `writerSome` mirrors
`writer : Option<BufWriter<File>>`; `path_temp` embeds the source field
holding the temporary sibling path. -/
structure PartialFile where
  writerSome : Bool
  path_temp : Str
  path_final : Str

/-- `PartialFile::new` (lines 11-21): derive the sibling temporary path
and create (truncate) that file. -/
def pfNew (fs : FileSys) (path_final : Str) : FileSys × PartialFile :=
  let path_temp := path_final ++ tempSuffix
  (fsSet fs path_temp [], ⟨true, path_temp, path_final⟩)

/-- One `write_all` through the buffered writer (the write loop in
s3.rs `get_write_loop`): append a chunk to the staged temporary contents.
Buffering is transparent here because both terminal operations flush. -/
def pfWrite (fs : FileSys) (pf : PartialFile) (chunk : List Nat) : FileSys :=
  fsSet fs pf.path_temp (((fs pf.path_temp).getD []) ++ chunk)

/-- A sequence of chunk writes. -/
def pfWrites (fs : FileSys) (pf : PartialFile) (chunks : List (List Nat)) : FileSys :=
  chunks.foldl (fun a c => pfWrite a pf c) fs

/-- `PartialFile::finished` (lines 22-27): flush, atomically rename
temp → final (one filesystem transition), drop the writer, return the
final path. -/
def pfFinished (fs : FileSys) (pf : PartialFile) : FileSys × PartialFile × Str :=
  let content := (fs pf.path_temp).getD []
  (fsSet (fsRemove fs pf.path_temp) pf.path_final content,
   ⟨false, pf.path_temp, pf.path_final⟩, pf.path_final)

/-- `PartialFile::cancelled`/`cancel` (lines 28-38): flush, delete the
temporary file. -/
def pfCancelled (fs : FileSys) (pf : PartialFile) : FileSys × PartialFile :=
  (fsRemove fs pf.path_temp, ⟨false, pf.path_temp, pf.path_final⟩)

/-- `Drop for PartialFile` (lines 47-56): run `cancel` unless a terminal
call already took the writer. -/
def pfDrop (fs : FileSys) (pf : PartialFile) : FileSys :=
  if pf.writerSome then (pfCancelled fs pf).1 else fs

/-- `new` followed by the writes: the staged filesystem and handle. -/
def pfStaged (fs0 : FileSys) (p : Str) (chunks : List (List Nat)) :
    FileSys × PartialFile :=
  let r := pfNew fs0 p
  (pfWrites r.1 r.2 chunks, r.2)

theorem tempSuffix_ne (p : Str) : ¬ p = p ++ tempSuffix := by
  intro h
  have := congrArg List.length h
  simp [tempSuffix] at this

theorem pfWrites_temp :
    ∀ (chunks : List (List Nat)) (fs : FileSys) (pf : PartialFile) (acc : List Nat),
      fs pf.path_temp = some acc →
      (pfWrites fs pf chunks) pf.path_temp = some (acc ++ chunks.flatten) := by
  intro chunks
  induction chunks with
  | nil =>
    intro fs pf acc h
    simpa [pfWrites] using h
  | cons c cs ih =>
    intro fs pf acc h
    have h1 : (pfWrite fs pf c) pf.path_temp = some (acc ++ c) := by
      simp [pfWrite, fsSet, h]
    have h2 := ih (pfWrite fs pf c) pf (acc ++ c) h1
    simp only [pfWrites, List.foldl_cons] at h2 ⊢
    simpa [List.append_assoc] using h2

theorem pfWrites_other :
    ∀ (chunks : List (List Nat)) (fs : FileSys) (pf : PartialFile) (q : Str),
      ¬ q = pf.path_temp → (pfWrites fs pf chunks) q = fs q := by
  intro chunks
  induction chunks with
  | nil =>
    intro fs pf q _
    simp [pfWrites]
  | cons c cs ih =>
    intro fs pf q hq
    have h2 := ih (pfWrite fs pf c) pf q hq
    simp only [pfWrites, List.foldl_cons] at h2 ⊢
    rw [h2]
    simp [pfWrite, fsSet, hq]

/-- Claim C1: partial-file round trip.  After `new` + writes + `finished`
the final path holds exactly the written bytes, the temporary sibling
(final path plus `".sup3.partial"`) is gone, and the returned path is the
final path.  After `new` + writes + `cancelled`, or after a drop without
a terminal call, neither the final path (absent initially) nor the
temporary path exists. -/
theorem partial_file_round_trip (fs0 : FileSys) (p : Str) (chunks : List (List Nat)) :
    ((pfFinished (pfStaged fs0 p chunks).1 (pfStaged fs0 p chunks).2).1 p
        = some chunks.flatten ∧
     (pfFinished (pfStaged fs0 p chunks).1 (pfStaged fs0 p chunks).2).1
        (p ++ tempSuffix) = none ∧
     (pfFinished (pfStaged fs0 p chunks).1 (pfStaged fs0 p chunks).2).2.2 = p) ∧
    (fs0 p = none →
     (pfCancelled (pfStaged fs0 p chunks).1 (pfStaged fs0 p chunks).2).1 p = none ∧
     (pfCancelled (pfStaged fs0 p chunks).1 (pfStaged fs0 p chunks).2).1
        (p ++ tempSuffix) = none) ∧
    (fs0 p = none →
     pfDrop (pfStaged fs0 p chunks).1 (pfStaged fs0 p chunks).2 p = none ∧
     pfDrop (pfStaged fs0 p chunks).1 (pfStaged fs0 p chunks).2
        (p ++ tempSuffix) = none) := by
  have hne : ¬ p = p ++ tempSuffix := tempSuffix_ne p
  have hts : ¬ (tempSuffix = ([] : Str)) := by simp [tempSuffix]
  have htempget : (pfStaged fs0 p chunks).1 (p ++ tempSuffix) = some chunks.flatten := by
    have h0 : (pfNew fs0 p).1 (pfNew fs0 p).2.path_temp = some [] := by
      simp [pfNew, fsSet]
    have := pfWrites_temp chunks (pfNew fs0 p).1 (pfNew fs0 p).2 [] h0
    simpa [pfStaged, pfNew] using this
  have hfinalget : (pfStaged fs0 p chunks).1 p = fs0 p := by
    have h1 : ¬ p = (pfNew fs0 p).2.path_temp := by
      simpa [pfNew] using hne
    have := pfWrites_other chunks (pfNew fs0 p).1 (pfNew fs0 p).2 p h1
    simp only [pfStaged] at *
    rw [this]
    simp [pfNew, fsSet, hne]
  simp only [pfStaged, pfNew] at htempget hfinalget
  refine ⟨⟨?_, ?_, ?_⟩, ?_, ?_⟩
  · simp [pfFinished, pfStaged, pfNew, fsSet, fsRemove, htempget]
  · simp [pfFinished, pfStaged, pfNew, fsSet, fsRemove, hne, hts]
  · simp [pfFinished, pfStaged, pfNew]
  · intro h0
    refine ⟨?_, ?_⟩
    · simp [pfCancelled, pfStaged, pfNew, fsRemove, hne, hts, hfinalget, h0]
    · simp [pfCancelled, pfStaged, pfNew, fsRemove]
  · intro h0
    refine ⟨?_, ?_⟩
    · simp [pfDrop, pfCancelled, pfStaged, pfNew, fsRemove, hne, hts, hfinalget, h0]
    · simp [pfDrop, pfCancelled, pfStaged, pfNew, fsRemove]

/-- Witness for C1 on a concrete filesystem, path and chunk sequence. -/
theorem partial_file_round_trip_witness :
    ((fun _ => none : FileSys) ['a'] = none) ∧
    (pfFinished (pfStaged (fun _ => none) ['a'] [[1], [2, 3]]).1
        (pfStaged (fun _ => none) ['a'] [[1], [2, 3]]).2).1 ['a'] = some [1, 2, 3] ∧
    (pfCancelled (pfStaged (fun _ => none) ['a'] [[1], [2, 3]]).1
        (pfStaged (fun _ => none) ['a'] [[1], [2, 3]]).2).1 ['a'] = none :=
  ⟨rfl,
   (partial_file_round_trip (fun _ => none) ['a'] [[1], [2, 3]]).1.1,
   ((partial_file_round_trip (fun _ => none) ['a'] [[1], [2, 3]]).2.1 rfl).1⟩

/-! ## Uri parsing (src/s3/uri.rs, `impl FromStr for Uri`) -/

/-- `bucket_valid_starting_char` (uri.rs lines 136-142). -/
def bucket_valid_starting_char (c : Char) : Bool :=
  (decide ('a' ≤ c) && decide (c ≤ 'z')) || (decide ('0' ≤ c) && decide (c ≤ '9'))

/-- `bucket_valid_char` (uri.rs lines 144-151). -/
def bucket_valid_char (c : Char) : Bool :=
  bucket_valid_starting_char c || c == '.' || c == '-'

/-- `validate_bucket_name` (uri.rs lines 155-171).  The Rust length check
counts bytes; on buckets passing the all-ASCII character check the two
coincide, and on others only the selected message differs.  The `!`/`||`
of the source appear as decidable negation/disjunction. -/
def validate_bucket_name (bucket : Str) : Except Str Unit :=
  if bucket.length < 3 then
    .error ("too short (must be at least 3 characters)".toList)
  else if ¬ (bucket.all bucket_valid_char = true) then
    .error ("invalid character (valid: [a-z0-9.-])".toList)
  else if ¬ (((bucket.head?.map bucket_valid_starting_char).getD false) = true)
      ∨ ¬ (((bucket.getLast?.map bucket_valid_starting_char).getD false) = true) then
    .error ("needs begin and end with a number or character ([a-z0-9])".toList)
  else .ok ()

/-- The parsed-URL components exposed by the external url crate
(`url::Url::parse` output).  For a URL that has a host the crate
guarantees the serialized path is empty or starts with `'/'`. -/
structure UrlParts where
  scheme : Str
  username : Str
  password : Option Str
  host : Option Str
  path : Str
  query : Option Str
  fragment : Option Str
deriving DecidableEq

/-- `Uri` (uri.rs lines 4-8). -/
structure Uri where
  bucket : Str
  key : Str
deriving DecidableEq

/-- `UriError` (uri.rs lines 10-25) without the `ParseError` variant,
which the external url parser produces before the embedded logic runs. -/
inductive UriError
  | invalidScheme
  | missingBucket
  | invalidUrlComponents (what : Str)
  | invalidBucketName (what : Str)
deriving DecidableEq

/-- The spec-side key transformation: the URL path with exactly one
leading `'/'` stripped. -/
def stripOneLeadingSlash : Str → Str
  | [] => []
  | c :: r => if c = '/' then r else c :: r

/-- `impl FromStr for Uri` (uri.rs lines 27-54), starting from parsed URL
components.  The outer `Option` models the `expect("separator must be /")`
panic, unreachable given the url crate's path invariant. -/
def uriFromUrl (u : UrlParts) : Option (Except UriError Uri) :=
  if ¬ u.scheme = ['s', '3'] then some (.error .invalidScheme)
  else if u.query.isSome then
    some (.error (.invalidUrlComponents ("query string".toList)))
  else if ¬ u.username = [] then
    some (.error (.invalidUrlComponents ("username".toList)))
  else if u.password.isSome then
    some (.error (.invalidUrlComponents ("password".toList)))
  else if u.fragment.isSome then
    some (.error (.invalidUrlComponents ("fragment".toList)))
  else
    match u.host with
    | none => some (.error .missingBucket)
    | some bucket =>
      match validate_bucket_name bucket with
      | .error e => some (.error (.invalidBucketName e))
      | .ok _ =>
        if u.path = [] then some (.ok ⟨bucket, []⟩)
        else
          match u.path with
          | '/' :: rest => some (.ok ⟨bucket, rest⟩)
          | _ => none

/-- The claim's naming rules: length ≥ 3, charset `[a-z0-9.-]`, first and
last characters alphanumeric. -/
def claimBucketOk (b : Str) : Prop :=
  3 ≤ b.length ∧
  (∀ c ∈ b, ('a' ≤ c ∧ c ≤ 'z') ∨ ('0' ≤ c ∧ c ≤ '9') ∨ c = '.' ∨ c = '-') ∧
  (∃ c, b.head? = some c ∧ (('a' ≤ c ∧ c ≤ 'z') ∨ ('0' ≤ c ∧ c ≤ '9'))) ∧
  (∃ c, b.getLast? = some c ∧ (('a' ≤ c ∧ c ≤ 'z') ∨ ('0' ≤ c ∧ c ≤ '9')))

theorem bucket_valid_starting_char_iff (c : Char) :
    bucket_valid_starting_char c = true ↔
      (('a' ≤ c ∧ c ≤ 'z') ∨ ('0' ≤ c ∧ c ≤ '9')) := by
  simp [bucket_valid_starting_char]

theorem bucket_valid_char_iff (c : Char) :
    bucket_valid_char c = true ↔
      (('a' ≤ c ∧ c ≤ 'z') ∨ ('0' ≤ c ∧ c ≤ '9') ∨ c = '.' ∨ c = '-') := by
  simp only [bucket_valid_char, Bool.or_eq_true, beq_iff_eq,
    bucket_valid_starting_char_iff]
  tauto

theorem validate_bucket_name_ok_iff (b : Str) :
    validate_bucket_name b = .ok () ↔ claimBucketOk b := by
  unfold validate_bucket_name claimBucketOk
  by_cases h1 : b.length < 3
  · rw [if_pos h1]
    constructor
    · intro h
      simp at h
    · intro hc
      exact absurd hc.1 (by omega)
  · rw [if_neg h1]
    by_cases h2 : b.all bucket_valid_char = true
    · rw [if_neg (not_not_intro h2)]
      by_cases hh : ((b.head?.map bucket_valid_starting_char).getD false) = true
      · by_cases hl : ((b.getLast?.map bucket_valid_starting_char).getD false) = true
        · rw [if_neg (by push_neg; exact ⟨hh, hl⟩)]
          constructor
          · intro _
            refine ⟨by omega, ?_, ?_, ?_⟩
            · intro c hc
              rw [List.all_eq_true] at h2
              exact (bucket_valid_char_iff c).mp (h2 c hc)
            · cases hhd : b.head? with
              | none =>
                rw [hhd] at hh
                simp at hh
              | some c =>
                rw [hhd] at hh
                exact ⟨c, rfl, by simpa [bucket_valid_starting_char_iff] using hh⟩
            · cases hhd : b.getLast? with
              | none =>
                rw [hhd] at hl
                simp at hl
              | some c =>
                rw [hhd] at hl
                exact ⟨c, rfl, by simpa [bucket_valid_starting_char_iff] using hl⟩
          · intro _
            rfl
        · rw [if_pos (Or.inr hl)]
          constructor
          · intro h
            simp at h
          · intro hc
            exfalso
            apply hl
            obtain ⟨c, hlast, hcv⟩ := hc.2.2.2
            rw [hlast]
            simpa [bucket_valid_starting_char_iff] using hcv
      · rw [if_pos (Or.inl hh)]
        constructor
        · intro h
          simp at h
        · intro hc
          exfalso
          apply hh
          obtain ⟨c, hhead, hcv⟩ := hc.2.2.1
          rw [hhead]
          simpa [bucket_valid_starting_char_iff] using hcv
    · rw [if_pos h2]
      constructor
      · intro h
        simp at h
      · intro hc
        exfalso
        apply h2
        rw [List.all_eq_true]
        intro c hc2
        exact (bucket_valid_char_iff c).mpr (hc.2.1 c hc2)

/-- Claim C6 (counterexample): the url crate parses `s3://bucket//a` as
scheme `s3`, host `bucket`, path `//a` with no query, credentials or
fragment; from those components the parser succeeds with key `/a`, which
begins with `'/'`, refuting the claimed invariant that the key never
begins with `'/'`. -/
theorem uri_parse_cex :
    uriFromUrl ⟨['s', '3'], [], none, some ("bucket".toList), "//a".toList, none, none⟩
      = some (.ok ⟨"bucket".toList, "/a".toList⟩) ∧
    ("/a".toList : Str).head? = some '/' :=
  ⟨rfl, rfl⟩

/-- Claim C6 (amended): parsing rejects a scheme other than `s3`
(`InvalidScheme`), rejects a present query string, username, password or
fragment (`InvalidUrlComponents`), requires a host (`MissingBucket`) that
passes the naming rules — length ≥ 3, charset `[a-z0-9.-]`, alphanumeric
first and last characters — (`InvalidBucketName`), and on success the key
is the URL path with exactly one leading `'/'` stripped; since the url
parser can hand back a path with consecutive slashes, the key may still
begin with `'/'`. -/
theorem uri_parse_amended :
    (∀ u : UrlParts, ¬ u.scheme = ['s', '3'] →
        uriFromUrl u = some (.error .invalidScheme)) ∧
    (∀ u : UrlParts, u.scheme = ['s', '3'] →
        (u.query.isSome ∨ ¬ u.username = [] ∨ u.password.isSome ∨ u.fragment.isSome) →
        ∃ w, uriFromUrl u = some (.error (.invalidUrlComponents w))) ∧
    (∀ u : UrlParts, u.scheme = ['s', '3'] → u.query = none → u.username = [] →
        u.password = none → u.fragment = none → u.host = none →
        uriFromUrl u = some (.error .missingBucket)) ∧
    (∀ (u : UrlParts) (b : Str), u.scheme = ['s', '3'] → u.query = none →
        u.username = [] → u.password = none → u.fragment = none → u.host = some b →
        ¬ claimBucketOk b →
        ∃ w, uriFromUrl u = some (.error (.invalidBucketName w))) ∧
    (∀ (u : UrlParts) (b : Str), u.scheme = ['s', '3'] → u.query = none →
        u.username = [] → u.password = none → u.fragment = none → u.host = some b →
        validate_bucket_name b = .ok () →
        (u.path = [] ∨ u.path.head? = some '/') →
        uriFromUrl u = some (.ok ⟨b, stripOneLeadingSlash u.path⟩)) ∧
    (∀ b : Str, validate_bucket_name b = .ok () ↔ claimBucketOk b) := by
  refine ⟨?_, ?_, ?_, ?_, ?_, validate_bucket_name_ok_iff⟩
  · intro u hs
    simp [uriFromUrl, hs]
  · intro u hs hcomp
    by_cases hq : u.query.isSome
    · exact ⟨("query string".toList), by simp [uriFromUrl, hs, hq]⟩
    · by_cases hu : u.username = []
      · by_cases hp : u.password.isSome
        · exact ⟨("password".toList), by simp [uriFromUrl, hs, hq, hu, hp]⟩
        · by_cases hf : u.fragment.isSome
          · exact ⟨("fragment".toList), by simp [uriFromUrl, hs, hq, hu, hp, hf]⟩
          · rcases hcomp with hc | hc | hc | hc
            · exact absurd hc hq
            · exact absurd hu hc
            · exact absurd hc hp
            · exact absurd hc hf
      · exact ⟨("username".toList), by simp [uriFromUrl, hs, hq, hu]⟩
  · intro u hs hq hu hp hf hh
    simp [uriFromUrl, hs, hq, hu, hp, hf, hh]
  · intro u b hs hq hu hp hf hh hbad
    have hv : ∃ w, validate_bucket_name b = .error w := by
      cases hve : validate_bucket_name b with
      | error w => exact ⟨w, rfl⟩
      | ok v =>
        cases v
        exact absurd ((validate_bucket_name_ok_iff b).mp hve) hbad
    obtain ⟨w, hw⟩ := hv
    exact ⟨w, by simp [uriFromUrl, hs, hq, hu, hp, hf, hh, hw]⟩
  · intro u b hs hq hu hp hf hh hv hpath
    rcases hpath with hp0 | hp1
    · simp [uriFromUrl, hs, hq, hu, hp, hf, hh, hv, hp0, stripOneLeadingSlash]
    · cases hpl : u.path with
      | nil =>
        rw [hpl] at hp1
        simp at hp1
      | cons c rest =>
        rw [hpl] at hp1
        have hc : c = '/' := by simpa using hp1
        subst hc
        simp [uriFromUrl, hs, hq, hu, hp, hf, hh, hv, hpl, stripOneLeadingSlash]

/-- Witness for C6 at a rejected scheme and at a successful parse. -/
theorem uri_parse_amended_witness :
    uriFromUrl ⟨['x'], [], none, some ("bucket".toList), [], none, none⟩
      = some (.error .invalidScheme) ∧
    uriFromUrl ⟨['s', '3'], [], none, some ("bucket".toList), ['/', 'k'], none, none⟩
      = some (.ok ⟨"bucket".toList, ['k']⟩) :=
  ⟨uri_parse_amended.1 ⟨['x'], [], none, some ("bucket".toList), [], none, none⟩ (by decide),
   by
     have h := uri_parse_amended.2.2.2.2.1
       ⟨['s', '3'], [], none, some ("bucket".toList), ['/', 'k'], none, none⟩
       ("bucket".toList) rfl rfl rfl rfl rfl rfl rfl (Or.inr rfl)
     simpa [stripOneLeadingSlash] using h⟩

/-! ## Download target resolution (src/s3.rs `Target`, src/transfer.rs
`download`) -/

/-- Outcome of probing the local destination path (`to.metadata()` in
`Target::new_create`). -/
inductive PathMeta
  | dir
  | file
  | notFound
  | otherErr
deriving DecidableEq

/-- `Target` (s3.rs lines 182-186). -/
inductive Target
  | directory (path : Str)
  | file (path : Str)
deriving DecidableEq

/-- `Target::new_create` (s3.rs lines 189-204) over the probe outcome.
The boolean of the result records whether `create_dir` ran ("newly
created"); `create_dir` is modelled as succeeding, and a foreign
metadata error maps to the error case. -/
def Target.new_create (numUris : Nat) (dest : Str) (meta : PathMeta)
    (recursive : Bool) : Except Str (Target × Bool) :=
  match meta with
  | .dir => .ok (.directory dest, false)
  | .file =>
    if 1 < numUris then
      .error ("multiple uris and destination is not a directory".toList)
    else .ok (.file dest, false)
  | .notFound =>
    if 1 < numUris || recursive then .ok (.directory dest, true)
    else .ok (.file dest, false)
  | .otherErr => .error ("metadata error".toList)

/-- The target resolution in `transfer::download` (transfer.rs line 255):
`Target::new_create(uris, to, true)` — the request's `recursive` flag is
in scope there but not forwarded. -/
def downloadResolveTarget (numUris : Nat) (dest : Str) (meta : PathMeta)
    (_recursive : Bool) : Except Str (Target × Bool) :=
  Target.new_create numUris dest meta true

/-- Claim C8 (counterexample): a download request with one source Uri,
recursion off and a nonexistent destination path resolves — per the
claim — to `File`; the code resolves it with `recursive` hardwired to
`true` and produces a freshly created `Directory` instead. -/
theorem target_resolution_cex :
    downloadResolveTarget 1 ['o', 'u', 't'] .notFound false
      = .ok (.directory ['o', 'u', 't'], true) ∧
    ¬ downloadResolveTarget 1 ['o', 'u', 't'] .notFound false
      = .ok (.file ['o', 'u', 't'], false) := by
  constructor
  · rfl
  · intro h
    simp [downloadResolveTarget, Target.new_create] at h

/-- Claim C8 (amended): `Target::new_create` maps its inputs exactly as
the claim states — existing directory → `Directory`; existing
non-directory → `File` for a single source and an error for several;
nonexistent path → a freshly created `Directory` when there are several
sources or its `recursive` argument is set, and `File` otherwise — but
`download` resolves the target per top-level request with that argument
hardwired to `true`, so a nonexistent destination always becomes a
created directory regardless of the request's recursive flag. -/
theorem target_resolution_amended :
    (∀ (n : Nat) (dest : Str) (r : Bool),
        Target.new_create n dest .dir r = .ok (.directory dest, false)) ∧
    (∀ (n : Nat) (dest : Str) (r : Bool), n ≤ 1 →
        Target.new_create n dest .file r = .ok (.file dest, false)) ∧
    (∀ (n : Nat) (dest : Str) (r : Bool), 1 < n →
        ∃ e, Target.new_create n dest .file r = .error e) ∧
    (∀ (n : Nat) (dest : Str) (r : Bool), 1 < n ∨ r = true →
        Target.new_create n dest .notFound r = .ok (.directory dest, true)) ∧
    (∀ (n : Nat) (dest : Str), n ≤ 1 →
        Target.new_create n dest .notFound false = .ok (.file dest, false)) ∧
    (∀ (n : Nat) (dest : Str) (meta : PathMeta) (r : Bool),
        downloadResolveTarget n dest meta r = Target.new_create n dest meta true) := by
  refine ⟨?_, ?_, ?_, ?_, ?_, ?_⟩
  · intro n dest r
    rfl
  · intro n dest r hn
    have : ¬ 1 < n := by omega
    simp [Target.new_create, this]
  · intro n dest r hn
    exact ⟨("multiple uris and destination is not a directory".toList),
      by simp [Target.new_create, hn]⟩
  · intro n dest r hor
    have : (1 < n || r) = true := by
      rcases hor with h | h
      · simp [h]
      · simp [h]
    simp [Target.new_create, this]
  · intro n dest hn
    have : (1 < n || false) = false := by
      simp
      omega
    simp [Target.new_create, this]
  · intro n dest meta r
    rfl

/-- Witness for C8 (amended) at concrete inputs for the hypothesis-bearing
clauses. -/
theorem target_resolution_amended_witness :
    Target.new_create 1 ['o'] .file false = .ok (.file ['o'], false) ∧
    Target.new_create 1 ['o'] .notFound true = .ok (.directory ['o'], true) ∧
    Target.new_create 1 ['o'] .notFound false = .ok (.file ['o'], false) :=
  ⟨target_resolution_amended.2.1 1 ['o'] false (by omega),
   target_resolution_amended.2.2.2.1 1 ['o'] true (Or.inr rfl),
   target_resolution_amended.2.2.2.2.1 1 ['o'] (by omega)⟩

/-! ## Download of a missing object (src/s3.rs `get`,
`get_recursive_stream`, `get_recursive_list_page`; src/transfer.rs
`download_recursive_one`) -/

/-- The subset of `s3::Error` (s3.rs lines 139-161) the download path
distinguishes. -/
inductive S3Error
  | noSuchKey (uri : Uri)
  | noFilename
  | getOther
deriving DecidableEq

/-- `filename` (uri.rs lines 56-63): the part after the last `'/'`;
`none` for an empty key or a key ending in `'/'`. -/
def filenameOf (key : Str) : Option Str :=
  let tail := (key.reverse.takeWhile (fun c => c != '/')).reverse
  if tail.isEmpty then none else some tail

/-- `Target::local_path` (s3.rs lines 205-214); `PathBuf::push` of the
filename appends one separator. -/
def Target.local_path (t : Target) (vfrom : Uri) : Except S3Error Str :=
  match t with
  | .file p => .ok p
  | .directory p =>
    match filenameOf vfrom.key with
    | none => .error .noFilename
    | some f => .ok (p ++ '/' :: f)

/-- The object store behind `GetObject`: content by bucket and key,
`none` meaning the service's `NoSuchKey`. -/
abbrev Store := Str → Str → Option (List Nat)

/-- `Client::get` (s3.rs lines 359-390) at the granularity C4 needs: the
root-key guard, `error_from_get`'s `NoSuchKey` classification, and the
local-path computation; for a present object the partial-file write loop
(modelled for C1) runs and the final path is returned. -/
def clientGet (store : Store) (vfrom : Uri) (dest : Target) : Except S3Error Str :=
  if vfrom.key = [] then .error (.noSuchKey vfrom)
  else
    match store vfrom.bucket vfrom.key with
    | none => .error (.noSuchKey vfrom)
    | some _ => dest.local_path vfrom

/-- `GetRecursiveResultStream` (s3.rs lines 242-245): `many` carries the
stream's `directory_uri` (bucket, explicit-directory key), which seeds
both the listing prefix and the seen-directory tracker
(`get_recursive_list_stream`, s3.rs lines 391-401). -/
inductive GetRecursiveResult
  | one (path : Str)
  | many (directory_uri : Uri)
deriving DecidableEq

/-- `Client::get_recursive_stream` (s3.rs lines 348-358). -/
def get_recursive_stream (store : Store) (recursive : Bool) (vfrom : Uri)
    (dest : Target) : Except S3Error GetRecursiveResult :=
  match clientGet store vfrom dest with
  | .error (.noSuchKey uri) =>
    if recursive then .ok (.many ⟨uri.bucket, to_explicit_directory uri.key⟩)
    else .error (.noSuchKey uri)
  | .ok p => .ok (.one p)
  | .error e => .error e

/-- One `ListObjectsV2` page as `get_recursive_list_page` reads it:
object keys and the echoed request token (the code reads
`files.continuation_token`, the echo of the request's token, not
`next_continuation_token`). -/
structure ListPage where
  contents : Option (List Str)
  continuation_token : Option Nat
deriving DecidableEq

/-- The backend listing oracle for the recursive download: prefix and
continuation token to page (delimiter is always unset there). -/
abbrev ListOracle := Str → Option Nat → ListPage

/-- `RecursiveStreamItem` (s3.rs lines 247-250). -/
inductive RecursiveStreamItem
  | directory (k : Str)
  | file (k : Str)
deriving DecidableEq

/-- `Client::get_recursive_list_page` (s3.rs lines 402-423): for every
listed key emit the unseen ancestor directories then the file; an empty
page ends the stream (`ok none`) when a token was echoed and is the
`NoSuchKey` failure otherwise. -/
def get_recursive_list_page (listing : ListOracle) (uri : Uri)
    (seen : SeenDirectories) (token : Option Nat) :
    Except S3Error (Option (List RecursiveStreamItem × Option Nat)) × SeenDirectories :=
  let files := listing uri.key token
  let step := (files.contents.getD []).foldl
    (fun (acc : List RecursiveStreamItem × SeenDirectories) key =>
      let r := acc.2.add_key key
      (acc.1 ++ (r.1.map RecursiveStreamItem.directory) ++ [RecursiveStreamItem.file key],
       r.2))
    ([], seen)
  let next := files.continuation_token
  if step.1 = [] then
    if next.isSome then (.ok none, step.2)
    else (.error (.noSuchKey uri), step.2)
  else (.ok (some (step.1, next)), step.2)

/-- The error accounting of `transfer::download_recursive_one`
(transfer.rs lines 163-237) at its top-level match: a direct download
adds no error, a failed `get_recursive_stream` adds exactly one, and the
recursive-listing arm contributes whatever its page processing adds
(an oracle here — C4 only constrains the other two arms). -/
def downloadOneErrors (manyErrors : Uri → Nat) :
    Except S3Error GetRecursiveResult → Nat
  | .ok (.one _) => 0
  | .ok (.many d) => manyErrors d
  | .error _ => 1

/-- Claim C4: for a Uri whose object does not exist (no stored object, or
the bucket-root key), a recursive download turns into the
implicit-directory listing stream rooted at the explicit-directory form
of the key, while a non-recursive download is the reported `NoSuchKey`
failure, counted as one error — never a zero-work success.  A prefix with
no matching objects under recursion likewise surfaces `NoSuchKey` from
the first page fetch. -/
theorem download_missing_object_spec (store : Store) (vfrom : Uri) (dest : Target)
    (manyErrors : Uri → Nat)
    (hmiss : store vfrom.bucket vfrom.key = none ∨ vfrom.key = []) :
    (get_recursive_stream store true vfrom dest
        = .ok (.many ⟨vfrom.bucket, to_explicit_directory vfrom.key⟩)) ∧
    (get_recursive_stream store false vfrom dest = .error (.noSuchKey vfrom) ∧
     downloadOneErrors manyErrors (get_recursive_stream store false vfrom dest) = 1) ∧
    (∀ (listing : ListOracle) (seen : SeenDirectories) (uri : Uri),
        (listing uri.key none).contents.getD [] = [] →
        (listing uri.key none).continuation_token = none →
        (get_recursive_list_page listing uri seen none).1
          = .error (.noSuchKey uri)) := by
  have hget : clientGet store vfrom dest = .error (.noSuchKey vfrom) := by
    rcases hmiss with h | h
    · unfold clientGet
      by_cases hk : vfrom.key = []
      · simp [hk]
      · simp [hk, h]
    · simp [clientGet, h]
  refine ⟨?_, ⟨?_, ?_⟩, ?_⟩
  · simp [get_recursive_stream, hget]
  · simp [get_recursive_stream, hget]
  · simp [get_recursive_stream, hget, downloadOneErrors]
  · intro listing seen uri hc ht
    unfold get_recursive_list_page
    simp only [hc, ht]
    simp

/-- Witness for C4 on a concrete empty store. -/
theorem download_missing_object_spec_witness :
    ((fun _ _ => none : Store) ['b'] ['k'] = none) ∧
    get_recursive_stream (fun _ _ => none) false ⟨['b'], ['k']⟩ (.file ['o'])
      = .error (.noSuchKey ⟨['b'], ['k']⟩) ∧
    downloadOneErrors (fun _ => 0)
      (get_recursive_stream (fun _ _ => none) false ⟨['b'], ['k']⟩ (.file ['o'])) = 1 :=
  ⟨rfl,
   (download_missing_object_spec (fun _ _ => none) ⟨['b'], ['k']⟩ (.file ['o'])
      (fun _ => 0) (Or.inl rfl)).2.1.1,
   (download_missing_object_spec (fun _ _ => none) ⟨['b'], ['k']⟩ (.file ['o'])
      (fun _ => 0) (Or.inl rfl)).2.1.2⟩

/-! ## Listing with implicit-directory probe (src/s3.rs `Client::ls`) -/

/-- The `ls` flags (s3.rs `ListArguments`) that steer which requests are
issued; the remaining flags only shape the printed output. -/
structure LsArgs where
  directory : Bool
  recurse : Bool
deriving DecidableEq

/-- The extracted glob data that steers the listing requests: literal
prefix and recursive-wildcard flag.  `Glob::new` rests on the external
wax compiler, so the extraction result enters as an input. -/
structure GlobInfo where
  pfx : Str
  has_recursive_wildcard : Bool
deriving DecidableEq

/-- A `ListObjectsV2` request as `ls_inner` (s3.rs lines 436-445) issues
it: prefix, delimiter, continuation token. -/
structure LsRequest where
  pfx : Str
  delim : Option Char
  token : Option Nat
deriving DecidableEq

/-- A listing response as `ls` reads it: optional object entries
(each with an optional key), optional common-prefix groups (each with an
optional prefix), and the next continuation token. -/
structure LsResponse where
  contents : Option (List (Option Str))
  common_prefixes : Option (List (Option Str))
  next_continuation_token : Option Nat
deriving DecidableEq

/-- The listing backend oracle: prefix, delimiter, continuation token to
response. -/
abbrev LsBackend := Str → Option Char → Option Nat → LsResponse

/-- The implicit-directory condition on the first response (s3.rs lines
468-474): a common-prefix list is present, there are no object entries,
there is exactly one group, and it equals the requested key made
explicitly a directory. -/
def probeCond (resp : LsResponse) (requestedKey : Str) : Bool :=
  match resp.common_prefixes with
  | none => false
  | some dirs =>
    ((resp.contents.map List.length).getD 0 == 0) &&
    (dirs.length == 1) &&
    (dirs[0]? == some (some (to_explicit_directory requestedKey)))

/-- The continuation-page loop of `ls` (s3.rs lines 495-507): one request
per remaining continuation token, always against the settled root.  The
fuel bounds the page count; every statement below holds for all fuels. -/
def lsPages (backend : LsBackend) (root : Str) (delim : Option Char) :
    Nat → Option Nat → List LsRequest
  | 0, _ => []
  | _ + 1, none => []
  | fuel + 1, some t =>
    ⟨root, delim, some t⟩ ::
      lsPages backend root delim fuel
        (backend root delim (some t)).next_continuation_token

/-- The request-issuing skeleton of `Client::ls` (s3.rs lines 446-509):
initial request, the optional implicit-directory probe — gated on
`!args.directory && glob.is_none()` — that replaces the first response
and re-roots the listing, then the continuation pages.  Returns the
issued requests, the response consumed as the first page, and the root
used from then on.  (`ls_consume_response` only prints and feeds the
seen-directory tracker; it issues no request.) -/
def lsRun (backend : LsBackend) (args : LsArgs) (glob : Option GlobInfo)
    (uriKey : Str) (fuel : Nat) : List LsRequest × LsResponse × Str :=
  let key := match glob with
    | none => uriKey
    | some g => g.pfx
  let hasRecGlob := (glob.map (fun g => g.has_recursive_wildcard)).getD false
  let sep : Option Char := if args.recurse || hasRecGlob then none else some '/'
  let resp0 := backend key sep none
  let req0 : LsRequest := ⟨key, sep, none⟩
  let doProbe := !args.directory && glob.isNone && probeCond resp0 uriKey
  if doProbe then
    let dirName := to_explicit_directory uriKey
    let resp1 := backend dirName sep none
    (req0 :: ⟨dirName, sep, none⟩ ::
       lsPages backend dirName sep fuel resp1.next_continuation_token,
     resp1, dirName)
  else
    (req0 :: lsPages backend key sep fuel resp0.next_continuation_token,
     resp0, key)

theorem lsPages_tokens (backend : LsBackend) (root : Str) (delim : Option Char) :
    ∀ (fuel : Nat) (tok : Option Nat), ∀ r ∈ lsPages backend root delim fuel tok,
      r.token.isSome = true := by
  intro fuel
  induction fuel with
  | zero =>
    intro tok r hr
    simp [lsPages] at hr
  | succ n ih =>
    intro tok r hr
    cases tok with
    | none => simp [lsPages] at hr
    | some t =>
      simp only [lsPages] at hr
      rcases List.mem_cons.mp hr with h | h
      · subst h
        rfl
      · exact ih _ r h

theorem lsPages_filter_none (backend : LsBackend) (root : Str) (delim : Option Char)
    (fuel : Nat) (tok : Option Nat) :
    (lsPages backend root delim fuel tok).filter (fun r => r.token == none) = [] := by
  rw [List.filter_eq_nil_iff]
  intro r hr
  have h := lsPages_tokens backend root delim fuel tok r hr
  rw [Option.isSome_iff_exists] at h
  obtain ⟨x, hx⟩ := h
  simp [hx]

/-- Claim C5 (counterexample): with the `--directory` flag set, a first
response made of exactly one common-prefix group equal to the requested
key plus `/` and no object entries — exactly the claim's reissue
condition — triggers no probe: the run issues a single listing request. -/
theorem ls_probe_cex :
    probeCond ((fun _ _ _ => ⟨some [], some [some ['a', '/']], none⟩ : LsBackend)
        ['a'] (some '/') none) ['a'] = true ∧
    (lsRun (fun _ _ _ => ⟨some [], some [some ['a', '/']], none⟩)
        ⟨true, false⟩ none ['a'] 5).1 = [⟨['a'], some '/', none⟩] := by
  constructor
  · rfl
  · rfl

/-- Claim C5 (amended): for an `ls` request without the `--directory`
flag and without a glob, after the first listing response the probe
re-listing is issued exactly when that response holds exactly one
common-prefix group, no direct object entries, and that group equals the
requested key made explicitly a directory; the reissued response then
replaces the first (the consumed first page is the listing at the
re-rooted key) and every subsequent continuation request carries a
continuation token — the probe, whose request carries none, is never
repeated on later pages. -/
theorem ls_probe_amended (backend : LsBackend) (args : LsArgs) (key0 : Str)
    (fuel : Nat) (hd : args.directory = false) :
    ((lsRun backend args none key0 fuel).1.filter
        (fun r => r.token == none)).length
      = (if probeCond (backend key0 (if args.recurse then none else some '/') none) key0
         then 2 else 1) ∧
    (lsRun backend args none key0 fuel).2.2
      = (if probeCond (backend key0 (if args.recurse then none else some '/') none) key0
         then to_explicit_directory key0 else key0) ∧
    (lsRun backend args none key0 fuel).2.1
      = backend ((lsRun backend args none key0 fuel).2.2)
          (if args.recurse then none else some '/') none ∧
    ((lsRun backend args none key0 fuel).1.head?
      = some ⟨key0, (if args.recurse then none else some '/'), none⟩) ∧
    (∀ r ∈ (lsRun backend args none key0 fuel).1.drop
        (if probeCond (backend key0 (if args.recurse then none else some '/') none) key0
         then 2 else 1), r.token.isSome = true) := by
  by_cases hp : probeCond (backend key0 (if args.recurse then none else some '/') none) key0
  · refine ⟨?_, ?_, ?_, ?_, ?_⟩
    · simp [lsRun, hd, hp, List.filter_cons, lsPages_filter_none]
    · simp [lsRun, hd, hp]
    · simp [lsRun, hd, hp]
    · simp [lsRun, hd, hp]
    · intro r hr
      simp [lsRun, hd, hp] at hr
      exact lsPages_tokens backend _ _ fuel _ r (by simpa using hr)
  · have hp' : probeCond (backend key0 (if args.recurse then none else some '/') none) key0
        = false := by
      simpa using hp
    refine ⟨?_, ?_, ?_, ?_, ?_⟩
    · simp [lsRun, hd, hp', List.filter_cons, lsPages_filter_none]
    · simp [lsRun, hd, hp']
    · simp [lsRun, hd, hp']
    · simp [lsRun, hd, hp']
    · intro r hr
      simp [lsRun, hd, hp'] at hr
      exact lsPages_tokens backend _ _ fuel _ r (by simpa using hr)

/-- Witness for C5 (amended) at a concrete backend whose first response
is an implicit-directory group, with the `--directory` flag off. -/
theorem ls_probe_amended_witness :
    ((⟨false, false⟩ : LsArgs).directory = false) ∧
    ((lsRun (fun _ _ _ => ⟨some [], some [some ['a', '/']], none⟩)
        ⟨false, false⟩ none ['a'] 5).1.filter (fun r => r.token == none)).length = 2 := by
  refine ⟨rfl, ?_⟩
  have h := (ls_probe_amended (fun _ _ _ => ⟨some [], some [some ['a', '/']], none⟩)
    ⟨false, false⟩ ['a'] 5 rfl).1
  simpa using h

end Sup3
